import Mathlib

/-!
Verification of the pipeline definition-and-compilation core and its
run-lifecycle driver, as exercised by the notebook `202-data-pipeline.ipynb`.

The notebook defines two pipelines (an image build pipeline and a data
processing pipeline), compiles them, submits them to an execution engine and
polls the resulting runs to completion.  The graph/compiler/run-driver
machinery itself lives in the host SDK; where a definition below models that
machinery rather than notebook code, its doc comment says so explicitly.
-/

namespace KFPipe

/-- Modelled from the spec: the statuses the Execution Engine status API may
report for a run (`Pending`, `Running`, `Succeeded`, `Failed`). -/
inductive EngineStatus where
  | Pending
  | Running
  | Succeeded
  | Failed
deriving DecidableEq, Repr

/-- Modelled from the spec: the local run statuses; `TimedOut` is the
locally-assigned outcome of a wait that gave up, never reported by the
Engine itself. -/
inductive Status where
  | Pending
  | Running
  | Succeeded
  | Failed
  | TimedOut
deriving DecidableEq, Repr

/-- A terminal Engine status is `Succeeded` or `Failed`. -/
def EngineStatus.isTerminal : EngineStatus → Bool
  | .Succeeded => true
  | .Failed => true
  | _ => false

/-- Inclusion of Engine-reported statuses into local statuses. -/
def EngineStatus.toStatus : EngineStatus → Status
  | .Pending => .Pending
  | .Running => .Running
  | .Succeeded => .Succeeded
  | .Failed => .Failed

/-- Default value of a pipeline parameter: the notebook uses both a Python
`None` default (`build_context=None`) and a string default
(`dockerfile='Dockerfile'`). -/
inductive DefaultVal where
  | noneVal
  | strVal (s : String)
deriving DecidableEq, Repr

/-- A declared pipeline parameter: a name plus an optional default. -/
structure ParamDecl where
  name : String
  default : Option DefaultVal
deriving DecidableEq, Repr

/-- An argument of a step: either a literal string (the notebook's f-string
paths captured from globals) or a reference to a declared pipeline
parameter. -/
inductive Arg where
  | lit (s : String)
  | paramRef (name : String)
deriving DecidableEq, Repr

/-- A step descriptor: id, script identity, ordered argument list and the ids
of its declared predecessors. -/
structure Step where
  id : String
  script : String
  arguments : List Arg
  predecessors : List String
deriving DecidableEq, Repr

/-- A pipeline graph: name, description, declared parameters and steps in
declaration order. -/
structure Graph where
  name : String
  description : String
  params : List ParamDecl
  steps : List Step
deriving DecidableEq, Repr

/-- The ids of the steps of a graph, in declaration order. -/
def Graph.stepIds (g : Graph) : List String := g.steps.map Step.id

/-- Modelled from the spec: the definition-time and finalization-time errors
of the graph builder (§4.1); the builder itself is host-SDK code absent from
the notebook. -/
inductive BuildError where
  | DuplicateStepError (id : String)
  | UnknownPredecessorError (id : String)
  | CycleDetectedError (ids : List String)
deriving DecidableEq, Repr

/-- Modelled from the spec: `add_step` of the graph builder (§4.1), host-SDK
code absent from the notebook: fails with `DuplicateStepError` on an id
collision and with `UnknownPredecessorError` when a declared predecessor id
is not yet present; otherwise appends the step. -/
def add_step (g : Graph) (s : Step) : Except BuildError Graph :=
  if s.id ∈ g.stepIds then .error (.DuplicateStepError s.id)
  else
    match s.predecessors.find? (fun p => decide (p ∉ g.stepIds)) with
    | some p => .error (.UnknownPredecessorError p)
    | none => .ok { g with steps := g.steps ++ [s] }

/-- A step is ready once every predecessor that names a step of the graph is
already in the emitted order (ids naming no step of the graph never block). -/
def readyStep (present done : List String) (s : Step) : Bool :=
  s.predecessors.all fun p => decide (p ∈ done ∨ p ∉ present)

/-- Modelled from the spec: the topological-sort reachability check behind
`finalize()` (§4.1), host-SDK code absent from the notebook.  Each round
emits every remaining step whose in-graph predecessors were already emitted;
if a nonempty remainder makes no progress the remainder is returned as the
blocked set. -/
def kahnAux (present : List String) : Nat → List Step → List String → List String ⊕ List Step
  | 0, remaining, order => if remaining.isEmpty then .inl order else .inr remaining
  | fuel + 1, remaining, order =>
    if remaining.isEmpty then .inl order
    else if (remaining.filter (readyStep present order)).isEmpty then .inr remaining
    else
      kahnAux present fuel (remaining.filter fun s => !readyStep present order s)
        (order ++ (remaining.filter (readyStep present order)).map Step.id)

/-- An immutable snapshot of a graph that passed finalization. -/
structure FinalizedGraph where
  graph : Graph
deriving DecidableEq, Repr

/-- The first predecessor of `s` naming a step of the blocked set, returned
as that step. -/
def pickPred (stuck : List Step) (s : Step) : Option Step :=
  match s.predecessors.find? (fun p => decide (p ∈ stuck.map Step.id)) with
  | none => none
  | some p => stuck.find? fun t => t.id == p

/-- Modelled from the spec: extraction of the offending cycle named by
`CycleDetectedError` (§4.1).  Starting from a blocked step, repeatedly move
to a blocked predecessor, recording the steps visited; as soon as a step
already visited reappears, the ids recorded since its first visit form a
closed cycle of the predecessor relation, which is returned.  (The fuel-out
and no-predecessor fallbacks are unreachable on a blocked set.) -/
def cycleWalk (stuck : List Step) : Nat → Step → List Step → List String
  | 0, s, acc => (acc ++ [s]).map Step.id
  | fuel + 1, s, acc =>
    match pickPred stuck s with
    | none => (acc ++ [s]).map Step.id
    | some t =>
      if t.id ∈ (acc ++ [s]).map Step.id then
        ((acc ++ [s]).map Step.id).drop (((acc ++ [s]).map Step.id).indexOf t.id)
      else cycleWalk stuck fuel t (acc ++ [s])

/-- Modelled from the spec: `finalize()` (§4.1), host-SDK code absent from
the notebook: runs the full-graph acyclicity check and either returns the
immutable snapshot or fails with `CycleDetectedError` naming one offending
cycle, extracted from the blocked steps. -/
def finalize (g : Graph) : Except BuildError FinalizedGraph :=
  match kahnAux g.stepIds g.steps.length g.steps [] with
  | .inl _ => .ok ⟨g⟩
  | .inr [] => .error (.CycleDetectedError [])
  | .inr (s0 :: rest) =>
    .error (.CycleDetectedError (cycleWalk (s0 :: rest) (s0 :: rest).length s0 []))

/-- The predecessors of a step that name a step of the graph. -/
def Step.inGraphPreds (g : Graph) (s : Step) : List String :=
  s.predecessors.filter fun p => decide (p ∈ g.stepIds)

/-- An order over the step ids of a graph is topological when it lists every
step id exactly once and each step comes strictly after each of its in-graph
predecessors. -/
def IsTopoOrder (g : Graph) (order : List String) : Prop :=
  order.Perm g.stepIds ∧
    ∀ s ∈ g.steps, ∀ p ∈ s.predecessors, p ∈ g.stepIds →
      order.indexOf p < order.indexOf s.id

/-- A graph is acyclic when some topological order of its steps exists. -/
def Acyclic (g : Graph) : Prop := ∃ order, IsTopoOrder g order

/-- The id-level predecessor relation: the step of the graph named `i`
declares `p` among its predecessors. -/
def predEdge (g : Graph) (i p : String) : Prop :=
  ∃ s ∈ g.steps, s.id = i ∧ p ∈ s.predecessors

/-- A list of step ids names one offending cycle when it is nonempty, lies
among the declared steps, each entry declares the following entry among its
predecessors, and the first entry is a predecessor of the last — i.e. it is
a closed directed cycle of length at least 1 in the predecessor relation. -/
def IsCycle (g : Graph) (c : List String) : Prop :=
  c ≠ [] ∧ (∀ i ∈ c, i ∈ g.stepIds) ∧ List.Chain' (predEdge g) c ∧
    ∃ a b, c.head? = some a ∧ c.getLast? = some b ∧ predEdge g b a

/-- A step of a compiled artifact: the translation of a step descriptor. -/
structure CompiledStep where
  id : String
  script : String
  arguments : List Arg
  dependencies : List String
deriving DecidableEq, Repr

/-- A compiled artifact: a portable serialization of a finalized graph,
carrying a compiler-format version tag, the parameter declarations and the
translated steps. -/
structure Artifact where
  formatVersion : String
  params : List ParamDecl
  steps : List CompiledStep
deriving DecidableEq, Repr

/-- Ambient mutable state of the defining process: a clock (the notebook
stamps the processing run name with `datetime.now()`) and the next
Engine-assigned run id. -/
structure Env where
  clock : Nat
  nextRunId : Nat
deriving DecidableEq, Repr

/-- Modelled from the spec: `Compiler.compile` (§4.2), host-SDK code absent
from the notebook: a pure translation of the finalized graph into the
artifact; it reads nothing from the ambient state and leaves it unchanged. -/
def compile (fg : FinalizedGraph) (e : Env) : Artifact × Env :=
  ({ formatVersion := "argo-v1"
     params := fg.graph.params
     steps := fg.graph.steps.map fun s => ⟨s.id, s.script, s.arguments, s.predecessors⟩ }, e)

/-- Serialization of an artifact to the bytes written to the archive file. -/
def serializeArtifact (a : Artifact) : String := reprStr a

/-- The declared parameters of an artifact that carry no default. -/
def requiredParams (ps : List ParamDecl) : List String :=
  (ps.filter fun p => p.default.isNone).map ParamDecl.name

/-- Whether a submission binds a value for the parameter named `n`. -/
def hasBinding (b : List (String × String)) (n : String) : Bool :=
  decide (n ∈ b.map Prod.fst)

/-- Modelled from the spec: the submission-time error (§4.3). -/
inductive SubmitError where
  | MissingParameterError (name : String)
deriving DecidableEq, Repr

/-- A run handle: the Engine-assigned id and the last observed status. -/
structure Run where
  id : Nat
  status : Status
deriving DecidableEq, Repr

/-- Modelled from the spec: Run Driver `submit` (§4.3), host-SDK code absent
from the notebook: when some declared parameter without a default is unbound
it fails with `MissingParameterError` naming it, touching no ambient state;
otherwise it returns a `Pending` run whose id is assigned at submission time
from the ambient state. -/
def submit (a : Artifact) (b : List (String × String)) (e : Env) :
    Except SubmitError (Run × Env) :=
  match (requiredParams a.params).find? (fun n => !hasBinding b n) with
  | some n => .error (.MissingParameterError n)
  | none => .ok ({ id := e.nextRunId, status := .Pending }, { e with nextRunId := e.nextRunId + 1 })

/-- The Engine-side history of one run: the status it reports at each poll
tick. -/
structure RunEngine where
  trace : Nat → EngineStatus

/-- Modelled from the spec: `poll(run_id)` (§4.3), host-SDK code absent from
the notebook: a read of the Engine's current status for the run; it never
mutates the Engine. -/
def poll (r : Run) (e : RunEngine) (t : Nat) : Run × RunEngine :=
  ({ r with status := (e.trace t).toStatus }, e)

/-- Polling loop of the blocking wait: polls ticks `t`, `t+1`, … while fuel
remains, stopping at the first terminal status, else giving up locally. -/
def awaitAux (trace : Nat → EngineStatus) : Nat → Nat → Status
  | 0, t => if (trace t).isTerminal then (trace t).toStatus else .TimedOut
  | fuel + 1, t =>
    if (trace t).isTerminal then (trace t).toStatus
    else awaitAux trace fuel (t + 1)

/-- Modelled from the spec: `wait_for_run_completion(run_id, timeout)`
(§4.3), host-SDK code called by the notebook: repeatedly polls until a
terminal status or until `timeout` ticks elapse, in which case the returned
run carries the locally-assigned status `TimedOut`; the Engine-side run is
left untouched either way. -/
def wait_for_run_completion (r : Run) (e : RunEngine) (timeout : Nat) : Run × RunEngine :=
  ({ r with status := awaitAux e.trace timeout 0 }, e)

/-- Modelled from the spec: one tick of Engine-side status evolution of a run
(§3): a `Pending` run may stay put, start `Running` or fail outright; a
`Running` run may keep running, succeed or fail; the terminal statuses have
no outgoing transition. -/
def engineStep : EngineStatus → EngineStatus → Prop
  | .Pending, s => s = .Pending ∨ s = .Running ∨ s = .Failed
  | .Running, s => s = .Running ∨ s = .Succeeded ∨ s = .Failed
  | .Succeeded, s => s = .Succeeded
  | .Failed, s => s = .Failed

/-- An Engine history is valid when consecutive ticks are related by
`engineStep`. -/
def ValidTrace (tr : Nat → EngineStatus) : Prop := ∀ n, engineStep (tr n) (tr (n + 1))

/-! Notebook globals (cell 4): `TAG = 'latest'` and the derived image name
and shared-volume paths; `DOCKER_REGISTRY` and `MOUNT_PATH` come from the
ambient environment and are passed in explicitly. -/

/-- The notebook's `TAG` global. -/
def tagName : String := "latest"

/-- The notebook's `GOLANG_IMAGE` global. -/
def golangImage (registry : String) : String := registry ++ "/golang:" ++ tagName

/-- The notebook's `TRAINING_ROOT` global. -/
def trainingRoot (mountPath : String) : String := mountPath ++ "/" ++ tagName ++ "/training"

/-- The notebook's `DATASET_FILE` global. -/
def datasetFileVal (mountPath : String) : String := trainingRoot mountPath ++ "/go-in.csv"

/-- The notebook's `OUT_FILE` global. -/
def outFileVal (mountPath : String) : String := trainingRoot mountPath ++ "/go-out.csv"

/-- The per-iteration `processed_file` f-string of the notebook's loop. -/
def processedFile (root : String) (i : Nat) : String :=
  root ++ "/go-out" ++ toString i ++ ".csv"

/-- The build pipeline of the notebook (cell 6): parameters `image` (no
default), `build_context` (default `None`) and `dockerfile` (default
`'Dockerfile'`), with a single kaniko step consuming all three. -/
def build_image : Graph :=
  { name := "Pipeline images"
    description := "Build images that will be used by the pipeline"
    params :=
      [⟨"image", none⟩, ⟨"build-context", some .noneVal⟩,
       ⟨"dockerfile", some (.strVal "Dockerfile")⟩]
    steps := [⟨"kaniko", "kaniko", [.paramRef "image", .paramRef "dockerfile", .paramRef "build-context"], []⟩] }

/-- The compiled build artifact (`.kaniko.tar.gz`). -/
def buildArtifact : Artifact := (compile ⟨build_image⟩ ⟨0, 0⟩).1

/-- The download step of the processing pipeline (cell 13). -/
def downloadStep : Step :=
  ⟨"download", "http_download",
   [.paramRef "import-from", .paramRef "dataset-md5", .paramRef "dataset-file"], []⟩

/-- The first Go processing step of the processing pipeline (cell 13): its
output file is the `out_file` pipeline parameter, its sole declared
predecessor is the download step. -/
def processStep0 : Step :=
  ⟨"process", "gocsv", [.paramRef "dataset-file", .paramRef "out-file"], ["download"]⟩

/-- The loop-generated Go processing step for index `i` (cell 13): its
output file is the literal `processed_file` path captured from
`TRAINING_ROOT`, its sole declared predecessor is the download step. -/
def processStep (root : String) (i : Nat) : Step :=
  ⟨"process-" ++ toString i, "gocsv",
   [.paramRef "dataset-file", .lit (processedFile root i)], ["download"]⟩

/-- The processing pipeline of the notebook (cell 13): four parameters
without defaults, a download step, one named processing step and nine
loop-generated processing steps for `i` in `range(1, 10)`, each declared
directly after the download step. -/
def processing_pipeline (root : String) : Graph :=
  { name := "Processing"
    description := "Download dataset, Run data processing steps using Go"
    params :=
      [⟨"import-from", none⟩, ⟨"dataset-file", none⟩,
       ⟨"dataset-md5", none⟩, ⟨"out-file", none⟩]
    steps := downloadStep :: processStep0 :: (List.range' 1 9).map (processStep root) }

/-- The compiled processing artifact (`.processing.tar.gz`). -/
def processingArtifact (root : String) : Artifact :=
  (compile ⟨processing_pipeline root⟩ ⟨0, 0⟩).1

/-- The parameter values of the build submission (cell 9). -/
def buildBindings (mountPath registry : String) : List (String × String) :=
  [("image", golangImage registry),
   ("build-context", mountPath ++ "/" ++ tagName ++ "/buildcontext/components/golang")]

/-- The parameter values of the processing submission (cell 15), with
`dataset-file` and `out-file` bound to the notebook globals. -/
def processingBindings (mountPath : String) : List (String × String) :=
  [("import-from", "https://s3.us-east-2.amazonaws.com/asi-kubeflow-models/gh-issues/go-in.csv"),
   ("dataset-md5", "916af946f2fe1d1779b26205d4d8378f"),
   ("dataset-file", datasetFileVal mountPath),
   ("out-file", outFileVal mountPath)]

/-- The display name of the build run (cell 9). -/
def buildRunName : String := "Build image: golang:" ++ tagName

/-- The display name of the processing run (cell 15), stamped with the
submission-time clock. -/
def processingRunName (e : Env) : String :=
  "Data processing " ++ tagName ++ ": " ++ toString e.clock

/-- The Engine as seen by the notebook driver: one status history per run
id. -/
structure NotebookEngine where
  traceOf : Nat → Nat → EngineStatus

/-- One observable action of the notebook driver. -/
inductive DriverEvent where
  | submitted (jobName : String) (runId : Nat)
  | awaited (runId : Nat) (result : Status)
deriving DecidableEq, Repr

/-- The notebook driver protocol (cells 9, 11, 15 and 16 in order): submit
the build pipeline, block on its run with `timeout=720`, then submit the
processing pipeline and block on its run with `timeout=720`.  The second
submission is unconditional: the awaited build status is printed but never
branched on. -/
def notebook_driver (eng : NotebookEngine) (e : Env) (mountPath registry : String) :
    List DriverEvent :=
  match submit buildArtifact (buildBindings mountPath registry) e with
  | .error _ => []
  | .ok (r1, e1) =>
    let w1 := (wait_for_run_completion r1 ⟨eng.traceOf r1.id⟩ 720).1
    match submit (processingArtifact (trainingRoot mountPath)) (processingBindings mountPath) e1 with
    | .error _ => [.submitted buildRunName r1.id, .awaited r1.id w1.status]
    | .ok (r2, _) =>
      let w2 := (wait_for_run_completion r2 ⟨eng.traceOf r2.id⟩ 720).1
      [.submitted buildRunName r1.id, .awaited r1.id w1.status,
       .submitted (processingRunName e1) r2.id, .awaited r2.id w2.status]

/-- A compiled step is eligible once each of its dependencies is done. -/
def eligible (done : List String) (cs : CompiledStep) : Bool :=
  cs.dependencies.all fun p => decide (p ∈ done)

/-- Resolution of a step argument against the submitted parameter values. -/
def resolveArg (b : List (String × String)) : Arg → Option String
  | .lit s => some s
  | .paramRef n => (b.find? fun x => x.1 == n).map Prod.snd

/-- The resolved second (output-file) argument of a step. -/
def stepOutArg (b : List (String × String)) (s : Step) : Option String :=
  s.arguments[1]?.bind (resolveArg b)

/-! Helper lemmas. -/

/-- The Engine-to-local status inclusion never produces `TimedOut`. -/
theorem toStatus_ne_timedOut (s : EngineStatus) : s.toStatus ≠ Status.TimedOut := by
  cases s <;> simp [EngineStatus.toStatus]

/-- If no polled tick within the fuel window is terminal, the polling loop
gives up with `TimedOut`. -/
theorem awaitAux_timedOut (tr : Nat → EngineStatus) :
    ∀ fuel t0, (∀ k, k ≤ fuel → (tr (t0 + k)).isTerminal = false) →
      awaitAux tr fuel t0 = Status.TimedOut := by
  intro fuel
  induction fuel with
  | zero =>
    intro t0 h
    have h0 := h 0 (Nat.le_refl 0)
    rw [Nat.add_zero] at h0
    simp [awaitAux, h0]
  | succ n ih =>
    intro t0 h
    have h0 := h 0 (Nat.zero_le _)
    rw [Nat.add_zero] at h0
    have hrec : awaitAux tr n (t0 + 1) = Status.TimedOut := by
      apply ih
      intro k hk
      have := h (k + 1) (by omega)
      rw [show t0 + (k + 1) = t0 + 1 + k by omega] at this
      exact this
    simp [awaitAux, h0, hrec]

/-- A terminal Engine status admits only itself as successor. -/
theorem engineStep_terminal {s s' : EngineStatus} (h : s.isTerminal = true)
    (hs : engineStep s s') : s' = s := by
  cases s
  · simp [EngineStatus.isTerminal] at h
  · simp [EngineStatus.isTerminal] at h
  · exact hs
  · exact hs

/-- In a valid Engine history, a terminal status persists forever. -/
theorem validTrace_stable {tr : Nat → EngineStatus} (h : ValidTrace tr) {m : Nat}
    (hm : (tr m).isTerminal = true) : ∀ n, m ≤ n → tr n = tr m := by
  intro n hn
  induction n, hn using Nat.le_induction with
  | base => rfl
  | succ n hmn ih =>
    rw [← ih]
    exact engineStep_terminal (by rw [ih]; exact hm) (h n)

/-- C2: when the run never reaches a terminal Engine status within the
timeout window, `wait_for_run_completion` returns the run with the
locally-assigned status `TimedOut` and leaves the Engine untouched, while
any subsequent `poll` on the same run reflects the Engine's own status,
which is never `TimedOut`. -/
theorem await_timeout_is_local (r : Run) (e : RunEngine) (timeout : Nat)
    (h : ∀ k, k ≤ timeout → (e.trace k).isTerminal = false) :
    (wait_for_run_completion r e timeout).1.status = Status.TimedOut ∧
    (wait_for_run_completion r e timeout).1.id = r.id ∧
    (wait_for_run_completion r e timeout).2 = e ∧
    ∀ m, (poll r e m).1.status = (e.trace m).toStatus ∧
      (poll r e m).1.status ≠ Status.TimedOut ∧ (poll r e m).2 = e := by
  refine ⟨?_, rfl, rfl, fun m => ⟨rfl, ?_, rfl⟩⟩
  · show awaitAux e.trace timeout 0 = Status.TimedOut
    apply awaitAux_timedOut
    intro k hk
    rw [Nat.zero_add]
    exact h k hk
  · show (e.trace m).toStatus ≠ Status.TimedOut
    exact toStatus_ne_timedOut _

/-- Witness for C2 at a run that stays `Running` forever. -/
theorem await_timeout_is_local_witness :
    (wait_for_run_completion ⟨0, .Pending⟩ ⟨fun _ => .Running⟩ 3).1.status = Status.TimedOut :=
  (await_timeout_is_local ⟨0, .Pending⟩ ⟨fun _ => .Running⟩ 3 (fun _ _ => rfl)).1

/-- C8: once a run's Engine status is terminal (`Succeeded` or `Failed`),
polling it any number of times returns that same status and mutates neither
the Engine nor the run's identity. -/
theorem poll_terminal_sticky (r : Run) (e : RunEngine) (h : ValidTrace e.trace)
    (m : Nat) (hm : (e.trace m).isTerminal = true) :
    ∀ n, m ≤ n →
      (poll r e n).1.status = (e.trace m).toStatus ∧
      (poll r e n).1.id = r.id ∧ (poll r e n).2 = e := by
  intro n hn
  refine ⟨?_, rfl, rfl⟩
  show (e.trace n).toStatus = (e.trace m).toStatus
  rw [validTrace_stable h hm n hn]

/-- Witness for C8 at a run already `Succeeded`. -/
theorem poll_terminal_sticky_witness :
    (poll ⟨0, .Pending⟩ ⟨fun _ => .Succeeded⟩ 5).1.status = Status.Succeeded :=
  (poll_terminal_sticky ⟨0, .Pending⟩ ⟨fun _ => .Succeeded⟩ (fun _ => rfl) 0 rfl 5
    (Nat.zero_le 5)).1

/-- C5: a submission binding every declared parameter without a default
returns a `Pending` run whose id is taken from the ambient state; a
submission leaving some such parameter unbound fails with
`MissingParameterError` naming an unset required parameter, identically for
every ambient state, i.e. before the Engine is consulted. -/
theorem submit_validation (a : Artifact) (b : List (String × String)) (e : Env) :
    ((∀ n ∈ requiredParams a.params, hasBinding b n = true) →
        submit a b e = .ok (⟨e.nextRunId, .Pending⟩, ⟨e.clock, e.nextRunId + 1⟩)) ∧
    (∀ n ∈ requiredParams a.params, hasBinding b n = false →
        ∃ m, m ∈ requiredParams a.params ∧ hasBinding b m = false ∧
          ∀ e2, submit a b e2 = .error (.MissingParameterError m)) := by
  constructor
  · intro hall
    have hnone : (requiredParams a.params).find? (fun n => !hasBinding b n) = none := by
      rw [List.find?_eq_none]
      intro x hx
      simp [hall x hx]
    cases e
    simp [submit, hnone]
  · intro n hn hnb
    have hsome : ((requiredParams a.params).find? (fun n => !hasBinding b n)).isSome := by
      rw [List.find?_isSome]
      exact ⟨n, hn, by simp [hnb]⟩
    obtain ⟨m, hm⟩ := Option.isSome_iff_exists.mp hsome
    refine ⟨m, List.mem_of_find?_eq_some hm, by simpa using List.find?_some hm, fun e2 => ?_⟩
    simp [submit, hm]

/-- Witness for C5: the build artifact submitted with `image` bound succeeds
in `Pending`; submitted with nothing bound it fails naming `image`, for any
ambient state. -/
theorem submit_validation_witness :
    submit buildArtifact [("image", "img")] ⟨0, 0⟩ = .ok (⟨0, .Pending⟩, ⟨0, 1⟩) ∧
    ∃ m, m ∈ requiredParams buildArtifact.params ∧ hasBinding [] m = false ∧
      ∀ e2, submit buildArtifact [] e2 = .error (.MissingParameterError m) :=
  ⟨(submit_validation buildArtifact [("image", "img")] ⟨0, 0⟩).1 (by decide),
   (submit_validation buildArtifact [] ⟨0, 0⟩).2 "image" (by decide) (by decide)⟩

/-- C4: compilation reads nothing from the ambient clock/id state, so the
artifact (and its serialized bytes) produced from a finalized graph is the
same under any two ambient states, the ambient state is left unchanged, and
the run-specific id is assigned only at submission time, from the
submission-time state. -/
theorem compile_deterministic (fg : FinalizedGraph) (e1 e2 : Env) :
    (compile fg e1).1 = (compile fg e2).1 ∧
    serializeArtifact (compile fg e1).1 = serializeArtifact (compile fg e2).1 ∧
    (compile fg e1).2 = e1 ∧
    ∀ b e r e', submit (compile fg e1).1 b e = .ok (r, e') → r.id = e.nextRunId := by
  refine ⟨rfl, rfl, rfl, ?_⟩
  intro b e r e' h
  unfold submit at h
  cases hf : (requiredParams (compile fg e1).1.params).find? (fun n => !hasBinding b n) with
  | some n => rw [hf] at h; exact absurd h (by simp)
  | none =>
    rw [hf] at h
    simp only [Except.ok.injEq, Prod.mk.injEq] at h
    rw [← h.1]

/-- Witness for C4 on the build pipeline under two distinct ambient
states. -/
theorem compile_deterministic_witness :
    (compile ⟨build_image⟩ ⟨1, 5⟩).1 = (compile ⟨build_image⟩ ⟨2, 9⟩).1 ∧
    (⟨42, .Pending⟩ : Run).id = (⟨7, 42⟩ : Env).nextRunId :=
  ⟨(compile_deterministic ⟨build_image⟩ ⟨1, 5⟩ ⟨2, 9⟩).1,
   (compile_deterministic ⟨build_image⟩ ⟨1, 5⟩ ⟨2, 9⟩).2.2.2 [("image", "img")] ⟨7, 42⟩
     ⟨42, .Pending⟩ ⟨7, 43⟩ rfl⟩

/-- C7: inserting a step whose declared predecessor id is not yet present
fails with `UnknownPredecessorError` naming a missing predecessor. -/
theorem add_step_unknown_predecessor (g : Graph) (s : Step)
    (hid : s.id ∉ g.stepIds) (p : String) (hp : p ∈ s.predecessors)
    (hnp : p ∉ g.stepIds) :
    ∃ q, add_step g s = .error (.UnknownPredecessorError q) ∧
      q ∈ s.predecessors ∧ q ∉ g.stepIds := by
  have hsome : (s.predecessors.find? fun x => decide (x ∉ g.stepIds)).isSome := by
    rw [List.find?_isSome]
    exact ⟨p, hp, by simpa using hnp⟩
  obtain ⟨q, hq⟩ := Option.isSome_iff_exists.mp hsome
  refine ⟨q, ?_, List.mem_of_find?_eq_some hq, by simpa using List.find?_some hq⟩
  unfold add_step
  rw [if_neg hid, hq]

/-- Witness for C7: declaring step `B` before its dependency `A` exists
fails. -/
theorem add_step_unknown_predecessor_witness :
    ∃ q, add_step ⟨"g", "", [], []⟩ ⟨"B", "x", [], ["A"]⟩ =
        .error (.UnknownPredecessorError q) ∧
      q ∈ (⟨"B", "x", [], ["A"]⟩ : Step).predecessors ∧
      q ∉ (⟨"g", "", [], []⟩ : Graph).stepIds :=
  add_step_unknown_predecessor ⟨"g", "", [], []⟩ ⟨"B", "x", [], ["A"]⟩ (by decide) "A"
    (by decide) (by decide)

/-- C10: in the build pipeline only `image` lacks a default —
`build-context` defaults to `None` and `dockerfile` to `'Dockerfile'` — so
submitting the build artifact without binding `build-context` raises no
missing-parameter error, while `image` must be bound. -/
theorem build_image_defaults (v : String) (e : Env) :
    build_image.params =
      [⟨"image", none⟩, ⟨"build-context", some .noneVal⟩,
       ⟨"dockerfile", some (.strVal "Dockerfile")⟩] ∧
    requiredParams buildArtifact.params = ["image"] ∧
    submit buildArtifact [("image", v)] e =
      .ok (⟨e.nextRunId, .Pending⟩, ⟨e.clock, e.nextRunId + 1⟩) ∧
    ∀ e2, submit buildArtifact [] e2 = .error (.MissingParameterError "image") := by
  refine ⟨rfl, rfl, ?_, fun e2 => rfl⟩
  cases e
  rfl

/-- C1 counterexample: against an Engine reporting `Failed` for every run at
every tick, the notebook driver observes the build run (id 0) end `Failed`
and nonetheless issues the second submit, for the processing pipeline
(id 1). -/
theorem driver_submits_after_failed_build :
    DriverEvent.awaited 0 Status.Failed ∈
        notebook_driver ⟨fun _ _ => .Failed⟩ ⟨0, 0⟩ "/mnt/s3" "registry.example.com" ∧
    DriverEvent.submitted "Data processing latest: 0" 1 ∈
        notebook_driver ⟨fun _ _ => .Failed⟩ ⟨0, 0⟩ "/mnt/s3" "registry.example.com" := by
  decide

/-- C1 amended: for every Engine and ambient state, the notebook driver's
event sequence is exactly submit-build, await-build, submit-processing,
await-processing — the second submit is issued only after the await on the
build run has returned, but it is issued unconditionally, whatever terminal
status that await produced. -/
theorem driver_second_submit_after_await (eng : NotebookEngine) (e : Env)
    (mountPath registry : String) :
    notebook_driver eng e mountPath registry =
      [DriverEvent.submitted buildRunName e.nextRunId,
       DriverEvent.awaited e.nextRunId
         (wait_for_run_completion ⟨e.nextRunId, Status.Pending⟩
           ⟨eng.traceOf e.nextRunId⟩ 720).1.status,
       DriverEvent.submitted (processingRunName ⟨e.clock, e.nextRunId + 1⟩) (e.nextRunId + 1),
       DriverEvent.awaited (e.nextRunId + 1)
         (wait_for_run_completion ⟨e.nextRunId + 1, Status.Pending⟩
           ⟨eng.traceOf (e.nextRunId + 1)⟩ 720).1.status] := by
  cases e
  rfl

/-- C3: in the processing pipeline every step other than the download step
declares the download step as its sole predecessor, no step depends on a
processing sibling, and in the compiled artifact every processing step's
dependency list is exactly the download step, so each is eligible as soon as
the download step alone is done. -/
theorem processing_fanout (root : String) :
    (∀ s ∈ (processing_pipeline root).steps, s.id ≠ "download" →
        s.predecessors = ["download"]) ∧
    (∀ s ∈ (processing_pipeline root).steps, ∀ t ∈ (processing_pipeline root).steps,
        t.id ∈ s.predecessors → t.id = "download") ∧
    (∀ e fg, fg.graph = processing_pipeline root →
        ∀ cs ∈ (compile fg e).1.steps, cs.id ≠ "download" →
          cs.dependencies = ["download"] ∧ eligible ["download"] cs = true) := by
  have hsteps : (processing_pipeline root).steps =
      [downloadStep, processStep0, processStep root 1, processStep root 2,
       processStep root 3, processStep root 4, processStep root 5, processStep root 6,
       processStep root 7, processStep root 8, processStep root 9] := rfl
  refine ⟨?_, ?_, ?_⟩
  · intro s hs hne
    rw [hsteps] at hs
    fin_cases hs <;>
      simp_all [downloadStep, processStep0, processStep]
  · intro s hs t ht hmem
    rw [hsteps] at hs ht
    fin_cases hs <;> fin_cases ht <;>
      simp_all [downloadStep, processStep0, processStep]
  · intro e fg hfg cs hcs hne
    rw [compile] at hcs
    simp only [hfg, hsteps, List.map_cons, List.map_nil] at hcs
    fin_cases hcs <;>
      simp_all [downloadStep, processStep0, processStep, eligible]

/-- Witness for C3 at a concrete root and loop step. -/
theorem processing_fanout_witness :
    (processStep "R" 3).predecessors = ["download"] :=
  (processing_fanout "R").1 (processStep "R" 3) (by decide) (by decide)

/-- String concatenation is associative. -/
theorem string_append_assoc (a b c : String) : a ++ b ++ c = a ++ (b ++ c) := by
  show String.mk (a.data ++ b.data ++ c.data) = String.mk (a.data ++ (b.data ++ c.data))
  rw [List.append_assoc]

/-- Appending a fixed root on the left is injective. -/
theorem string_append_right_inj (r : String) :
    Function.Injective fun s => r ++ s := by
  intro a b h
  have hd : r.data ++ a.data = r.data ++ b.data := congrArg String.data h
  cases a
  cases b
  simp only [List.append_cancel_left_eq] at hd
  rw [hd]

/-- The loop's f-string path, reassociated around the shared root. -/
theorem processedFile_eq (root : String) (i : Nat) :
    processedFile root i = root ++ ("/go-out" ++ (toString i ++ ".csv")) := by
  simp [processedFile, string_append_assoc]

/-- The file names the processing steps write under the shared root. -/
def outSuffixes : List String :=
  "/go-out.csv" :: (List.range' 1 9).map fun i => "/go-out" ++ (toString i ++ ".csv")

/-- C9: under the notebook's bindings the resolved output-file arguments of
the ten processing steps are the shared-volume paths `go-out.csv` (the bound
`out-file` parameter of the first step) and `go-out1.csv` … `go-out9.csv`
(the nine loop-generated siblings), and those ten paths are pairwise
distinct. -/
theorem out_paths_distinct (mountPath : String) :
    (((processing_pipeline (trainingRoot mountPath)).steps.filter
          fun s => s.script == "gocsv").map
        (stepOutArg (processingBindings mountPath))) =
      (outFileVal mountPath ::
        (List.range' 1 9).map (processedFile (trainingRoot mountPath))).map some ∧
    (outFileVal mountPath ::
        (List.range' 1 9).map (processedFile (trainingRoot mountPath))).Nodup := by
  constructor
  · rfl
  · have key : (outFileVal mountPath ::
        (List.range' 1 9).map (processedFile (trainingRoot mountPath))) =
        outSuffixes.map fun suf => trainingRoot mountPath ++ suf := by
      simp [outSuffixes, outFileVal, processedFile_eq]
    rw [key]
    exact List.Nodup.map (string_append_right_inj _) (by decide)

/-- In a graph with no duplicate step ids, a step is determined by its id. -/
theorem step_id_inj {g : Graph} (hnd : g.stepIds.Nodup) {s t : Step}
    (hs : s ∈ g.steps) (ht : t ∈ g.steps) (h : s.id = t.id) : s = t := by
  have hnd' : (g.steps.map Step.id).Nodup := hnd
  exact List.inj_on_of_nodup_map hnd' hs ht h

/-- Every nonempty list has an element minimizing a given measure. -/
theorem exists_min_on {α : Type} (f : α → Nat) :
    ∀ l : List α, l ≠ [] → ∃ s ∈ l, ∀ t ∈ l, f s ≤ f t := by
  intro l
  induction l with
  | nil => exact fun h => absurd rfl h
  | cons a l ih =>
    intro _
    rcases eq_or_ne l [] with rfl | hne
    · refine ⟨a, List.mem_cons_self a [], ?_⟩
      intro t ht
      rcases List.mem_cons.mp ht with rfl | ht
      · exact Nat.le_refl _
      · exact absurd ht (List.not_mem_nil t)
    · obtain ⟨s, hs, hmin⟩ := ih hne
      rcases Nat.le_total (f a) (f s) with h | h
      · refine ⟨a, List.mem_cons_self a l, ?_⟩
        intro t ht
        rcases List.mem_cons.mp ht with rfl | ht
        · exact Nat.le_refl _
        · exact Nat.le_trans h (hmin t ht)
      · refine ⟨s, List.mem_cons_of_mem a hs, ?_⟩
        intro t ht
        rcases List.mem_cons.mp ht with rfl | ht
        · exact h
        · exact hmin t ht

/-- Soundness of the finalization check: when the emitting loop consumes all
steps, the emitted order is a topological order of the graph.  The
hypotheses are the loop invariant: the pending steps are a sublist of the
graph, emitted ids plus pending ids are a permutation of all ids, and the
emitted prefix is internally topologically sorted. -/
theorem kahnAux_inl_topo (g : Graph) (hnd : g.stepIds.Nodup) :
    ∀ (fuel : Nat) (rem : List Step) (ord out : List String),
      rem.Sublist g.steps →
      (ord ++ rem.map Step.id).Perm g.stepIds →
      (∀ s ∈ g.steps, s.id ∈ ord →
          ∀ p ∈ s.predecessors, p ∈ g.stepIds →
            p ∈ ord ∧ ord.indexOf p < ord.indexOf s.id) →
      kahnAux g.stepIds fuel rem ord = .inl out → IsTopoOrder g out := by
  have topo_of_empty : ∀ (rem : List Step) (ord : List String), rem.isEmpty →
      (ord ++ rem.map Step.id).Perm g.stepIds →
      (∀ s ∈ g.steps, s.id ∈ ord →
          ∀ p ∈ s.predecessors, p ∈ g.stepIds →
            p ∈ ord ∧ ord.indexOf p < ord.indexOf s.id) →
      IsTopoOrder g ord := by
    intro rem ord hre hperm hinv
    rw [List.isEmpty_iff] at hre
    subst hre
    simp only [List.map_nil, List.append_nil] at hperm
    refine ⟨hperm, ?_⟩
    intro s hs p hp hpres
    have hso : s.id ∈ ord := hperm.mem_iff.mpr (List.mem_map_of_mem Step.id hs)
    exact (hinv s hs hso p hp hpres).2
  intro fuel
  induction fuel with
  | zero =>
    intro rem ord out hsub hperm hinv hrun
    unfold kahnAux at hrun
    by_cases hre : rem.isEmpty
    · rw [if_pos hre] at hrun
      cases hrun
      exact topo_of_empty rem ord hre hperm hinv
    · rw [if_neg hre] at hrun
      exact absurd hrun (by simp)
  | succ n ih =>
    intro rem ord out hsub hperm hinv hrun
    unfold kahnAux at hrun
    by_cases hre : rem.isEmpty
    · rw [if_pos hre] at hrun
      cases hrun
      exact topo_of_empty rem ord hre hperm hinv
    · rw [if_neg hre] at hrun
      by_cases hready : (rem.filter (readyStep g.stepIds ord)).isEmpty
      · rw [if_pos hready] at hrun
        exact absurd hrun (by simp)
      · rw [if_neg hready] at hrun
        have hndall : (ord ++ rem.map Step.id).Nodup := hperm.nodup_iff.mpr hnd
        obtain ⟨hndo, hndr, hdisj⟩ := List.nodup_append.mp hndall
        have hpp : ((rem.filter (readyStep g.stepIds ord)) ++
            (rem.filter fun s => !readyStep g.stepIds ord s)).Perm rem :=
          List.filter_append_perm _ rem
        refine ih (rem.filter fun s => !readyStep g.stepIds ord s)
          (ord ++ (rem.filter (readyStep g.stepIds ord)).map Step.id) out
          ((List.filter_sublist rem).trans hsub) ?_ ?_ hrun
        · rw [List.append_assoc, ← List.map_append]
          exact (List.Perm.append_left ord (hpp.map Step.id)).trans hperm
        · intro s hsg hso p hp hpres
          rcases List.mem_append.mp hso with hso | hsr
          · obtain ⟨hpo, hlt⟩ := hinv s hsg hso p hp hpres
            refine ⟨List.mem_append_left _ hpo, ?_⟩
            rw [List.indexOf_append_of_mem hpo, List.indexOf_append_of_mem hso]
            exact hlt
          · obtain ⟨r, hr, hrid⟩ := List.mem_map.mp hsr
            have hrrem : r ∈ rem := (List.mem_filter.mp hr).1
            have hready_r : readyStep g.stepIds ord r = true := (List.mem_filter.mp hr).2
            have hrg : r ∈ g.steps := hsub.subset hrrem
            have hsr' : s = r := step_id_inj hnd hsg hrg hrid.symm
            have hpo : p ∈ ord := by
              unfold readyStep at hready_r
              have hdec := (List.all_eq_true.mp hready_r) p (by rw [hsr'] at hp; exact hp)
              rcases of_decide_eq_true hdec with h | h
              · exact h
              · exact absurd hpres h
            refine ⟨List.mem_append_left _ hpo, ?_⟩
            rw [List.indexOf_append_of_mem hpo]
            have hsid_rem : s.id ∈ rem.map Step.id :=
              List.mem_map.mpr ⟨r, hrrem, hrid⟩
            have hsno : s.id ∉ ord := fun hin => hdisj hin hsid_rem
            rw [List.indexOf_append_of_not_mem hsno]
            have hlen : ord.indexOf p < ord.length := List.indexOf_lt_length.mpr hpo
            omega

/-- Completeness of the finalization check: when the graph has a topological
order, the emitting loop never gets stuck, provided the fuel covers the
pending steps. -/
theorem kahnAux_acyclic_inl (g : Graph) (tord : List String)
    (htord : IsTopoOrder g tord) :
    ∀ (fuel : Nat) (rem : List Step) (ord : List String),
      rem.Sublist g.steps →
      (ord ++ rem.map Step.id).Perm g.stepIds →
      rem.length ≤ fuel →
      ∃ out, kahnAux g.stepIds fuel rem ord = .inl out := by
  intro fuel
  induction fuel with
  | zero =>
    intro rem ord hsub hperm hlen
    have hnil : rem = [] := List.length_eq_zero.mp (Nat.le_zero.mp hlen)
    subst hnil
    exact ⟨ord, by simp [kahnAux]⟩
  | succ n ih =>
    intro rem ord hsub hperm hlen
    by_cases hre : rem.isEmpty
    · exact ⟨ord, by unfold kahnAux; rw [if_pos hre]⟩
    · have hrne : rem ≠ [] := by simpa [List.isEmpty_iff] using hre
      obtain ⟨s, hsrem, hmin⟩ := exists_min_on (fun t => tord.indexOf t.id) rem hrne
      have hsg : s ∈ g.steps := hsub.subset hsrem
      have hready_s : readyStep g.stepIds ord s = true := by
        unfold readyStep
        rw [List.all_eq_true]
        intro p hp
        by_cases hpres : p ∈ g.stepIds
        · have hlt := htord.2 s hsg p hp hpres
          have hpnotrem : p ∉ rem.map Step.id := by
            intro hinrem
            obtain ⟨t, htrem, htid⟩ := List.mem_map.mp hinrem
            have hmt := hmin t htrem
            rw [htid] at hmt
            omega
          have hpo : p ∈ ord := by
            have hpall : p ∈ ord ++ rem.map Step.id := hperm.mem_iff.mpr hpres
            rcases List.mem_append.mp hpall with h | h
            · exact h
            · exact absurd h hpnotrem
          exact decide_eq_true (Or.inl hpo)
        · exact decide_eq_true (Or.inr hpres)
      have hready_ne : ¬(rem.filter (readyStep g.stepIds ord)).isEmpty := by
        intro hready
        rw [List.isEmpty_iff] at hready
        have hins : s ∈ rem.filter (readyStep g.stepIds ord) :=
          List.mem_filter.mpr ⟨hsrem, hready_s⟩
        rw [hready] at hins
        exact absurd hins (List.not_mem_nil s)
      have hpp : ((rem.filter (readyStep g.stepIds ord)) ++
          (rem.filter fun s => !readyStep g.stepIds ord s)).Perm rem :=
        List.filter_append_perm _ rem
      have hlensum := hpp.length_eq
      rw [List.length_append] at hlensum
      have hpos : 0 < (rem.filter (readyStep g.stepIds ord)).length := by
        rw [List.length_pos]
        intro hnil
        rw [← List.isEmpty_iff] at hnil
        exact hready_ne hnil
      obtain ⟨out, hout⟩ := ih (rem.filter fun s => !readyStep g.stepIds ord s)
        (ord ++ (rem.filter (readyStep g.stepIds ord)).map Step.id)
        ((List.filter_sublist rem).trans hsub)
        (by
          rw [List.append_assoc, ← List.map_append]
          exact (List.Perm.append_left ord (hpp.map Step.id)).trans hperm)
        (by omega)
      refine ⟨out, ?_⟩
      unfold kahnAux
      rw [if_neg hre, if_neg hready_ne]
      exact hout

/-- Characterization of a failed finalization check: the blocked set is a
nonempty collection of graph steps each of which waits on an in-graph
predecessor that is itself blocked. -/
theorem kahnAux_inr_blocked (g : Graph) :
    ∀ (fuel : Nat) (rem : List Step) (ord : List String) (stuck : List Step),
      rem.Sublist g.steps →
      (ord ++ rem.map Step.id).Perm g.stepIds →
      rem.length ≤ fuel →
      kahnAux g.stepIds fuel rem ord = .inr stuck →
      stuck ≠ [] ∧ stuck.Sublist g.steps ∧
        ∀ s ∈ stuck, ∃ p ∈ s.predecessors, p ∈ g.stepIds ∧ p ∈ stuck.map Step.id := by
  intro fuel
  induction fuel with
  | zero =>
    intro rem ord stuck hsub hperm hlen hrun
    have hnil : rem = [] := List.length_eq_zero.mp (Nat.le_zero.mp hlen)
    subst hnil
    unfold kahnAux at hrun
    exact absurd hrun (by simp)
  | succ n ih =>
    intro rem ord stuck hsub hperm hlen hrun
    unfold kahnAux at hrun
    by_cases hre : rem.isEmpty
    · rw [if_pos hre] at hrun
      exact absurd hrun (by simp)
    · rw [if_neg hre] at hrun
      by_cases hready : (rem.filter (readyStep g.stepIds ord)).isEmpty
      · rw [if_pos hready] at hrun
        cases hrun
        rw [List.isEmpty_iff] at hready
        refine ⟨by simpa [List.isEmpty_iff] using hre, hsub, ?_⟩
        intro s hsrem
        have hnr : readyStep g.stepIds ord s = false := by
          cases hb : readyStep g.stepIds ord s with
          | false => rfl
          | true =>
            have hins : s ∈ rem.filter (readyStep g.stepIds ord) :=
              List.mem_filter.mpr ⟨hsrem, hb⟩
            rw [hready] at hins
            exact absurd hins (List.not_mem_nil s)
        unfold readyStep at hnr
        obtain ⟨p, hp, hpd⟩ := List.all_eq_false.mp hnr
        have hpd' : ¬(p ∈ ord ∨ p ∉ g.stepIds) := by
          intro hor
          exact hpd (decide_eq_true hor)
        push_neg at hpd'
        obtain ⟨hpno, hpres⟩ := hpd'
        have hpall : p ∈ ord ++ rem.map Step.id := hperm.mem_iff.mpr hpres
        rcases List.mem_append.mp hpall with h | h
        · exact absurd h hpno
        · exact ⟨p, hp, hpres, h⟩
      · rw [if_neg hready] at hrun
        have hpp : ((rem.filter (readyStep g.stepIds ord)) ++
            (rem.filter fun s => !readyStep g.stepIds ord s)).Perm rem :=
          List.filter_append_perm _ rem
        have hlensum := hpp.length_eq
        rw [List.length_append] at hlensum
        have hpos : 0 < (rem.filter (readyStep g.stepIds ord)).length := by
          rw [List.length_pos]
          intro hnil
          rw [← List.isEmpty_iff] at hnil
          exact hready hnil
        exact ih (rem.filter fun s => !readyStep g.stepIds ord s)
          (ord ++ (rem.filter (readyStep g.stepIds ord)).map Step.id) stuck
          ((List.filter_sublist rem).trans hsub)
          (by
            rw [List.append_assoc, ← List.map_append]
            exact (List.Perm.append_left ord (hpp.map Step.id)).trans hperm)
          (by omega) hrun

/-- When some predecessor of `s` names a step of the blocked set, `pickPred`
returns such a step. -/
theorem pickPred_spec (stuck : List Step) (s : Step)
    (h : ∃ p ∈ s.predecessors, p ∈ stuck.map Step.id) :
    ∃ t, pickPred stuck s = some t ∧ t ∈ stuck ∧ t.id ∈ s.predecessors := by
  obtain ⟨p, hp, hpstuck⟩ := h
  have h1 : (s.predecessors.find? fun x => decide (x ∈ stuck.map Step.id)).isSome := by
    rw [List.find?_isSome]
    exact ⟨p, hp, by simpa using hpstuck⟩
  obtain ⟨q, hq⟩ := Option.isSome_iff_exists.mp h1
  have hqpred : q ∈ s.predecessors := List.mem_of_find?_eq_some hq
  have hqstuck : q ∈ stuck.map Step.id := by simpa using List.find?_some hq
  obtain ⟨t0, ht0, ht0id⟩ := List.mem_map.mp hqstuck
  have h2 : (stuck.find? fun t => t.id == q).isSome := by
    rw [List.find?_isSome]
    exact ⟨t0, ht0, by simp [ht0id]⟩
  obtain ⟨t, ht⟩ := Option.isSome_iff_exists.mp h2
  have htid : t.id = q := by simpa using List.find?_some ht
  refine ⟨t, ?_, List.mem_of_find?_eq_some ht, by rw [htid]; exact hqpred⟩
  unfold pickPred
  rw [hq]
  exact ht

/-- The last recorded id of a walk state is the id of the current step. -/
theorem visited_getLast (acc : List Step) (s : Step) :
    ((acc ++ [s]).map Step.id).getLast? = some s.id := by
  rw [List.map_append]
  exact List.getLast?_concat _

/-- The predecessor walk over a blocked set — one in which every step has a
predecessor naming a step of the set — terminates in one offending cycle.
The hypotheses are the walk invariant: the visited steps lie in the blocked
set, consecutive visited ids are predecessor edges, no id was visited twice,
and the fuel covers the unvisited part of the set. -/
theorem cycleWalk_isCycle (g : Graph) (stuck : List Step)
    (hsubg : ∀ a ∈ stuck, a ∈ g.steps)
    (hblocked : ∀ a ∈ stuck, ∃ p ∈ a.predecessors, p ∈ stuck.map Step.id) :
    ∀ (fuel : Nat) (s : Step) (acc : List Step),
      s ∈ stuck → (∀ a ∈ acc, a ∈ stuck) →
      List.Chain' (predEdge g) ((acc ++ [s]).map Step.id) →
      ((acc ++ [s]).map Step.id).Nodup →
      stuck.length < fuel + (acc ++ [s]).length →
      IsCycle g (cycleWalk stuck fuel s acc) := by
  intro fuel
  induction fuel with
  | zero =>
    intro s acc hs hacc hchain hnodup hfuel
    exfalso
    have hsubids : ((acc ++ [s]).map Step.id) ⊆ stuck.map Step.id := by
      intro i hi
      obtain ⟨a, ha, hai⟩ := List.mem_map.mp hi
      rcases List.mem_append.mp ha with ha | ha
      · exact List.mem_map.mpr ⟨a, hacc a ha, hai⟩
      · rw [List.mem_singleton] at ha
        subst ha
        exact List.mem_map.mpr ⟨a, hs, hai⟩
    have hle := (List.subperm_of_subset hnodup hsubids).length_le
    rw [List.length_map, List.length_map] at hle
    omega
  | succ n ih =>
    intro s acc hs hacc hchain hnodup hfuel
    obtain ⟨t, hpick, htstuck, htpred⟩ := pickPred_spec stuck s (hblocked s hs)
    have hedge : predEdge g s.id t.id := ⟨s, hsubg s hs, rfl, htpred⟩
    by_cases ht : t.id ∈ (acc ++ [s]).map Step.id
    · have hred : cycleWalk stuck (n + 1) s acc =
          ((acc ++ [s]).map Step.id).drop (((acc ++ [s]).map Step.id).indexOf t.id) := by
        unfold cycleWalk
        rw [hpick]
        exact if_pos ht
      rw [hred]
      have hn0lt : ((acc ++ [s]).map Step.id).indexOf t.id <
          ((acc ++ [s]).map Step.id).length := List.indexOf_lt_length.mpr ht
      have hdropeq : ((acc ++ [s]).map Step.id).drop
            (((acc ++ [s]).map Step.id).indexOf t.id) =
          t.id :: ((acc ++ [s]).map Step.id).drop
            (((acc ++ [s]).map Step.id).indexOf t.id + 1) := by
        rw [List.drop_eq_getElem_cons hn0lt]
        congr 1
        exact List.getElem_indexOf hn0lt
      have hcnil : ((acc ++ [s]).map Step.id).drop
          (((acc ++ [s]).map Step.id).indexOf t.id) ≠ [] := by
        rw [hdropeq]
        exact List.cons_ne_nil _ _
      refine ⟨hcnil, ?_, hchain.suffix (List.drop_suffix _ _), ?_⟩
      · intro i hi
        have hiv : i ∈ (acc ++ [s]).map Step.id := List.drop_subset _ _ hi
        obtain ⟨a, ha, hai⟩ := List.mem_map.mp hiv
        rcases List.mem_append.mp ha with ha | ha
        · exact hai ▸ List.mem_map_of_mem Step.id (hsubg a (hacc a ha))
        · rw [List.mem_singleton] at ha
          subst ha
          exact hai ▸ List.mem_map_of_mem Step.id (hsubg a hs)
      · refine ⟨t.id, s.id, ?_, ?_, hedge⟩
        · rw [hdropeq]
          rfl
        · have hsplit : (((acc ++ [s]).map Step.id).take
                (((acc ++ [s]).map Step.id).indexOf t.id) ++
              ((acc ++ [s]).map Step.id).drop
                (((acc ++ [s]).map Step.id).indexOf t.id)).getLast? =
              ((acc ++ [s]).map Step.id).getLast? := by
            rw [List.take_append_drop]
          obtain ⟨x, hx⟩ := Option.isSome_iff_exists.mp (List.getLast?_isSome.mpr hcnil)
          rw [List.getLast?_append, hx, Option.or_some, visited_getLast] at hsplit
          rw [hx]
          exact hsplit
    · have hred : cycleWalk stuck (n + 1) s acc = cycleWalk stuck n t (acc ++ [s]) := by
        simp only [cycleWalk]
        rw [hpick]
        exact if_neg ht
      rw [hred]
      have hlen : ((acc ++ [s]) ++ [t]).length = (acc ++ [s]).length + 1 := by
        rw [List.length_append]
        rfl
      refine ih t (acc ++ [s]) htstuck ?_ ?_ ?_ (by omega)
      · intro a ha
        rcases List.mem_append.mp ha with ha | ha
        · exact hacc a ha
        · rw [List.mem_singleton] at ha
          subst ha
          exact hs
      · rw [List.map_append]
        rw [List.chain'_append]
        refine ⟨hchain, List.chain'_singleton _, ?_⟩
        intro x hx y hy
        rw [visited_getLast, Option.mem_def, Option.some.injEq] at hx
        simp only [List.map_cons, List.map_nil, List.head?_cons, Option.mem_def,
          Option.some.injEq] at hy
        rw [← hx, ← hy]
        exact hedge
      · rw [List.map_append]
        rw [List.nodup_append]
        refine ⟨hnodup, List.nodup_singleton _, ?_⟩
        intro a ha hb
        simp only [List.map_cons, List.map_nil, List.mem_singleton] at hb
        subst hb
        exact ht ha

/-- C6: for a graph without duplicate step ids, `finalize()` succeeds —
returning the immutable snapshot of the graph — exactly when the predecessor
relation over its steps is acyclic; otherwise it fails with
`CycleDetectedError` naming one offending cycle: a nonempty closed chain of
declared steps each declaring the next as predecessor, wrapping around. -/
theorem finalize_ok_iff_acyclic (g : Graph) (hnd : g.stepIds.Nodup) :
    (finalize g = .ok ⟨g⟩ ↔ Acyclic g) ∧
    (¬Acyclic g →
      ∃ c, finalize g = .error (.CycleDetectedError c) ∧ IsCycle g c) := by
  have hinit_sub : g.steps.Sublist g.steps := List.Sublist.refl _
  have hinit_perm : (([] : List String) ++ g.steps.map Step.id).Perm g.stepIds := by
    simp [Graph.stepIds]
  have hinit_inv : ∀ s ∈ g.steps, s.id ∈ ([] : List String) →
      ∀ p ∈ s.predecessors, p ∈ g.stepIds →
        p ∈ ([] : List String) ∧ List.indexOf p [] < List.indexOf s.id [] := by
    intro s _ h
    exact absurd h (List.not_mem_nil _)
  constructor
  · constructor
    · intro hok
      unfold finalize at hok
      cases hrun : kahnAux g.stepIds g.steps.length g.steps [] with
      | inl out =>
        exact ⟨out, kahnAux_inl_topo g hnd _ _ _ _ hinit_sub hinit_perm hinit_inv hrun⟩
      | inr stuck =>
        rw [hrun] at hok
        cases stuck with
        | nil => exact absurd hok (by simp)
        | cons s0 rest => exact absurd hok (by simp)
    · intro hacy
      obtain ⟨tord, htord⟩ := hacy
      obtain ⟨out, hout⟩ := kahnAux_acyclic_inl g tord htord g.steps.length g.steps []
        hinit_sub hinit_perm (Nat.le_refl _)
      unfold finalize
      rw [hout]
  · intro hnacy
    cases hrun : kahnAux g.stepIds g.steps.length g.steps [] with
    | inl out =>
      exact absurd ⟨out, kahnAux_inl_topo g hnd _ _ _ _ hinit_sub hinit_perm hinit_inv hrun⟩
        hnacy
    | inr stuck =>
      obtain ⟨hne, hsubst, hblocked⟩ := kahnAux_inr_blocked g _ _ _ _ hinit_sub hinit_perm
        (Nat.le_refl _) hrun
      obtain ⟨s0, rest, rfl⟩ := List.exists_cons_of_ne_nil hne
      refine ⟨cycleWalk (s0 :: rest) (s0 :: rest).length s0 [], ?_, ?_⟩
      · unfold finalize
        rw [hrun]
      · refine cycleWalk_isCycle g (s0 :: rest) (fun a ha => hsubst.subset ha)
          (fun a ha => ?_) (s0 :: rest).length s0 [] (List.mem_cons_self s0 rest)
          (fun a ha => absurd ha (List.not_mem_nil a)) (List.chain'_singleton _)
          (List.nodup_singleton _) (by simp)
        obtain ⟨p, hp, _, hps⟩ := hblocked a ha
        exact ⟨p, hp, hps⟩

/-- Witness for C6: the notebook's processing pipeline graph is acyclic,
obtained through the theorem from its successful finalization. -/
theorem finalize_ok_iff_acyclic_witness : Acyclic (processing_pipeline "R") :=
  (finalize_ok_iff_acyclic (processing_pipeline "R") (by decide)).1.mp rfl

end KFPipe
